import Mathlib

/-!
# lila-deepq — verification of the job-queue subsystem and report aggregation

Shallow embedding of the lila-deepq sources (Rust) into Lean 4.

The document store is modelled as explicit state: a `Store` holds the five
collections as lists of documents, and every store call of the sources becomes
a pure function from `Store` to `Store` (plus its result).  Atomic store
operations (`find_one_and_update`, `update_one` with filter, upsert) become
single pure steps on the `Store`, matching the concurrency discipline of the
sources where the store's atomic operations are the only synchronisation
points.

MongoDB `ObjectId`s are modelled as `Nat`; freshly minted ids come from a
`nextId` counter carried by the `Store`.  Timestamps are `Int` (milliseconds).
The chess library (shakmaty) is out of scope for the sources and is modelled
as an abstract `ChessLib` record of conversion functions passed explicitly.
-/

namespace LilaDeepq

/-! ## Identifiers and basic model types (src/deepq/model.rs, src/fishnet/model.rs) -/

abbrev ObjectId := Nat
abbrev GameId := String
abbrev UserId := String
abbrev JobId := ObjectId
abbrev ReportId := ObjectId
abbrev Key := String

/-- `AnalysisType` from src/fishnet/model.rs. -/
inductive AnalysisType
  | userAnalysis
  | systemAnalysis
  | deep
deriving DecidableEq

/-- `ApiUser` from src/fishnet/model.rs. -/
structure ApiUser where
  _id : ObjectId
  key : Key
  user : Option UserId
  name : String
  perms : List AnalysisType
deriving DecidableEq

/-- `Job` from src/fishnet/model.rs. -/
structure Job where
  _id : JobId
  game_id : GameId
  analysis_type : AnalysisType
  precedence : Int
  owner : Option String
  date_last_updated : Int
  report_id : Option ReportId
  is_complete : Bool
deriving DecidableEq

/-- `ReportOrigin` from src/deepq/model.rs. -/
inductive ReportOrigin
  | moderator
  | random
  | leaderboard
  | tournament
deriving DecidableEq

/-- `ReportType` from src/deepq/model.rs. -/
inductive ReportType
  | irwin
  | cr
  | pgnspy
deriving DecidableEq

/-- `Report` from src/deepq/model.rs. -/
structure Report where
  _id : ReportId
  user_id : UserId
  date_requested : Int
  date_completed : Option Int
  origin : ReportOrigin
  report_type : ReportType
  games : List GameId
  sent_to_irwin : Bool
deriving DecidableEq

/-- `Score` from src/deepq/model.rs (`Cp(i64)` or `Mate(i64)`). -/
inductive Score
  | cp (v : Int)
  | mate (v : Int)
deriving DecidableEq

/-- `SkippedAnalysis` from src/deepq/model.rs. -/
structure SkippedAnalysis where
  skipped : Bool
deriving DecidableEq

/-- `EmptyAnalysis` from src/deepq/model.rs. -/
structure EmptyAnalysis where
  depth : Int
  score : Score
deriving DecidableEq

abbrev Uci := String
abbrev San := String

/-- `BestMove` from src/deepq/model.rs. -/
structure BestMove where
  pv : List Uci
  depth : Int
  score : Score
  time : Int
  nodes : Int
  nps : Option Int
deriving DecidableEq

/-- `MatrixAnalysis` from src/deepq/model.rs. -/
structure MatrixAnalysis where
  pv : List (List (Option (List Uci)))
  score : List (List (Option Score))
  depth : Int
  nodes : Int
  time : Int
  nps : Option Int
deriving DecidableEq

/-- `PlyAnalysis` from src/deepq/model.rs: a tagged union of the four per-ply
    outcome shapes. -/
inductive PlyAnalysis
  | matrix (m : MatrixAnalysis)
  | best (b : BestMove)
  | skipped (s : SkippedAnalysis)
  | empty (e : EmptyAnalysis)
deriving DecidableEq

/-- `Game` from src/deepq/model.rs. -/
structure Game where
  _id : GameId
  emts : List Int
  pgn : List Uci
  black : Option UserId
  white : Option UserId
deriving DecidableEq

/-- `Nodes` from src/deepq/model.rs. -/
structure Nodes where
  nnue : Int
  classical : Int
deriving DecidableEq

/-- `GameAnalysis` from src/deepq/model.rs. -/
structure GameAnalysis where
  _id : ObjectId
  job_id : JobId
  game_id : GameId
  source_id : UserId
  analysis : List (Option PlyAnalysis)
  requested_pvs : Option Int
  requested_depth : Option Int
  requested_nodes : Nodes
deriving DecidableEq

/-- `UpdateGameAnalysis` from src/deepq/api.rs. -/
structure UpdateGameAnalysis where
  job_id : ObjectId
  game_id : GameId
  source_id : UserId
  analysis : List (Option PlyAnalysis)
  requested_pvs : Option Int
  requested_depth : Option Int
  requested_nodes : Nodes
deriving DecidableEq

/-- `CreateGame` from src/deepq/api.rs. -/
structure CreateGame where
  game_id : GameId
  emts : List Int
  pgn : List Uci
  black : Option UserId
  white : Option UserId
deriving DecidableEq

/-- `CreateReport` from src/deepq/api.rs. -/
structure CreateReport where
  user_id : UserId
  origin : ReportOrigin
  report_type : ReportType
  games : List GameId
deriving DecidableEq

/-- `CreateJob` from src/fishnet/model.rs. -/
structure CreateJob where
  game_id : GameId
  report_id : Option ReportId
  analysis_type : AnalysisType
  precedence : Int
deriving DecidableEq

/-- Error kinds of src/error.rs that the embedded code paths can produce. -/
inductive Error
  | sanError
  | positionError
  | uciError
  | incompleteIrwinAnalysis
  | createError
deriving DecidableEq

/-! ## The store

The five collections of §6.4, as lists of documents, plus a counter supplying
fresh `ObjectId`s (`ObjectId::new()` in the sources). -/

structure Store where
  jobs : List Job
  reports : List Report
  games : List Game
  analyses : List GameAnalysis
  apiusers : List ApiUser
  nextId : ObjectId
deriving DecidableEq

/-- ASCII lowercasing of one character. -/
def asciiLower (c : Char) : Char :=
  if 'A' ≤ c ∧ c ≤ 'Z' then Char.ofNat (c.toNat + 32) else c

/-- `impl From<Key> for Bson` in src/fishnet/model.rs lowercases the key when
    a `Key` value is embedded in a query or update document (`to_lowercase`;
    the generated keys are ASCII alphanumeric, where Unicode and ASCII
    lowercasing agree). -/
def keyBson (k : Key) : String := ⟨k.data.map asciiLower⟩

instance {ε α : Type} [DecidableEq ε] [DecidableEq α] :
    DecidableEq (Except ε α) := fun a b =>
  match a, b with
  | .ok x, .ok y =>
      if h : x = y then isTrue (by rw [h])
      else isFalse (by intro hc; cases hc; exact h rfl)
  | .error x, .error y =>
      if h : x = y then isTrue (by rw [h])
      else isFalse (by intro hc; cases hc; exact h rfl)
  | .ok _, .error _ => isFalse (by intro hc; cases hc)
  | .error _, .ok _ => isFalse (by intro hc; cases hc)

/-- Update the first element of a list satisfying `p` by `f`; leave the rest
    unchanged.  Models MongoDB `update_one` applied to a filtered collection. -/
def updateFirst (p : α → Bool) (f : α → α) : List α → List α
  | [] => []
  | x :: xs => if p x then f x :: xs else x :: updateFirst p f xs

/-! ## Selection under a sort order

`find_one_and_update`/`find_one` with a `sort` document picks the first
document in the sort order among those matching the filter.  `chooseFirst lt`
folds over the matching documents keeping the earliest-sorted one; among
documents that tie completely it keeps the first in collection order. -/

def chooseFirst (lt : α → α → Bool) : List α → Option α
  | [] => none
  | x :: xs => some (xs.foldl (fun acc y => if lt y acc then y else acc) x)

/-! ## src/fishnet/api.rs — the job broker -/

/-- `get_api_user` from src/fishnet/api.rs: `find_one {key: key.0}`.  The key
    string is passed as a plain `String`, so no lowercasing happens here. -/
def get_api_user (store : Store) (key : Key) : Option ApiUser :=
  store.apiusers.find? (fun u => u.key = key)

/-- Sort order `{precedence: -1, date_last_updated: 1}` of `assign_job`:
    `a` sorts before `b` iff `a` has strictly greater precedence, or equal
    precedence and strictly smaller `date_last_updated`. -/
def assignLt (a b : Job) : Bool :=
  b.precedence < a.precedence ∨
    (a.precedence = b.precedence ∧ a.date_last_updated < b.date_last_updated)

/-- `assign_job` from src/fishnet/api.rs: atomic `find_one_and_update` with
    filter `owner = null ∧ analysis_type ∈ api_user.perms`, sort
    `{precedence: -1, date_last_updated: 1}`, update
    `$set {owner: api_user.key}` (the key is lowercased by its Bson
    conversion).  The options do not set `return_document`, so the driver
    returns the pre-update document. -/
def assign_job (store : Store) (api_user : ApiUser) : Option Job × Store :=
  match chooseFirst assignLt (store.jobs.filter
      (fun j => j.owner = none ∧ j.analysis_type ∈ api_user.perms)) with
  | none => (none, store)
  | some j =>
      (some j,
        { store with
            jobs := store.jobs.map (fun k =>
              if k._id = j._id then { k with owner := some (keyBson api_user.key) } else k) })

/-- `unassign_job` from src/fishnet/api.rs: `update_one` with filter
    `_id = id ∧ owner = api_user.key` (key lowercased by its Bson conversion),
    setting `owner ← null`; returns success whether or not the filter
    matched.  The store adapter's update-one is taken at the interface of
    spec §2/§4.4.2: it sets the named field on the matched document. -/
def unassign_job (store : Store) (api_user : ApiUser) (id : ObjectId) : Store :=
  { store with
      jobs := updateFirst
        (fun j => j._id = id ∧ j.owner = some (keyBson api_user.key))
        (fun j => { j with owner := none })
        store.jobs }

/-- `delete_job` from src/fishnet/api.rs: `delete_one {_id: id}`. -/
def delete_job (store : Store) (id : ObjectId) : Store :=
  { store with
      jobs := match store.jobs.find? (fun j => j._id = id) with
        | none => store.jobs
        | some j => store.jobs.erase j }

/-- `get_user_job` from src/fishnet/api.rs: `find_one {_id: id, owner: user.key}`
    (key lowercased by its Bson conversion). -/
def get_user_job (store : Store) (id : ObjectId) (user : ApiUser) : Option Job :=
  store.jobs.find? (fun j => j._id = id ∧ j.owner = some (keyBson user.key))

/-- Sort order `{date_last_updated: -1}` of `Job::oldest_job`:
    `a` sorts before `b` iff `a.date_last_updated` is strictly greater. -/
def oldestLt (a b : Job) : Bool :=
  b.date_last_updated < a.date_last_updated

/-- `Job::oldest_job` from src/fishnet/model.rs: `find_one` with filter
    `owner = null ∧ analysis_type = kind` and sort `{date_last_updated: -1}`
    (descending: the first document in that order has the greatest
    `date_last_updated`). -/
def oldest_job (store : Store) (analysis_type : AnalysisType) : Option Job :=
  chooseFirst oldestLt
    (store.jobs.filter (fun j => j.owner = none ∧ j.analysis_type = analysis_type))

/-- `Job::queued_jobs` from src/fishnet/model.rs. -/
def queued_jobs (store : Store) (analysis_type : AnalysisType) : Nat :=
  (store.jobs.filter (fun j => j.owner = none ∧ j.analysis_type = analysis_type)).length

/-- `Job::acquired_jobs` from src/fishnet/model.rs. -/
def acquired_jobs (store : Store) (analysis_type : AnalysisType) : Nat :=
  (store.jobs.filter (fun j => j.owner ≠ none ∧ j.analysis_type = analysis_type)).length

/-! ## The chess library boundary

Chess move conversion and position legality live in the external shakmaty
library (out of scope per spec §1).  We model it as a record of conversion
functions over abstract positions and moves; every embedded function that
replays moves takes a `ChessLib` explicitly. -/

abbrev Position := Nat
abbrev Move := String

structure ChessLib where
  /-- `San::to_move(&pos)`: legalise a SAN token in a position; `none` models
      the `SanError` failure. -/
  sanToMove : Position → San → Option Move
  /-- `Uci::from_move(&m, CastlingMode::Standard)`. -/
  uciFromMove : Move → Uci
  /-- `uci.to_move(&pos)`: legalise a UCI token in a position. -/
  uciToMove : Position → Uci → Option Move
  /-- `San::from_move(&pos, &m)`. -/
  sanFromMove : Position → Move → San
  /-- `pos.play(&m)`: `none` models the `PositionError` failure. -/
  play : Position → Move → Option Position
  /-- `Chess::default()`: the standard starting position. -/
  start : Position

/-! ## src/irwin/api.rs — ingestion pipeline -/

/-- `uci_from_san` from src/irwin/api.rs: replay the SAN tokens from the
    standard starting position, converting each to UCI; fail on the first
    token that does not legalise. -/
def uci_from_san (lib : ChessLib) (pgn : List San) : Except Error (List Uci) :=
  go lib lib.start pgn
where
  go (lib : ChessLib) : Position → List San → Except Error (List Uci)
    | _, [] => .ok []
    | pos, san :: rest =>
        match lib.sanToMove pos san with
        | none => .error .sanError
        | some m =>
            match lib.play pos m with
            | none => .error .positionError
            | some pos' =>
                match go lib pos' rest with
                | .error e => .error e
                | .ok us => .ok (lib.uciFromMove m :: us)

/-- `User` from src/irwin/api.rs. -/
structure IrwinUser where
  id : UserId
  titled : Bool
  engine : Bool
  games : Int
deriving DecidableEq

/-- `RequestGame` from src/irwin/api.rs. -/
structure RequestGame where
  id : GameId
  white : UserId
  black : UserId
  emts : Option (List Int)
  pgn : List San
  analysis : Option (List Score)
deriving DecidableEq

/-- `Request` from src/irwin/api.rs. -/
structure Request where
  t : String
  origin : ReportOrigin
  user : IrwinUser
  games : List RequestGame
deriving DecidableEq

/-- `TryFrom<&RequestGame> for CreateGame` from src/irwin/api.rs. -/
def createGameOfRequestGame (lib : ChessLib) (g : RequestGame) :
    Except Error CreateGame :=
  match uci_from_san lib g.pgn with
  | .error e => .error e
  | .ok pgn =>
      .ok { game_id := g.id
            emts := g.emts.getD []
            pgn := pgn
            black := some g.black
            white := some g.white }

/-- `From<Request> for CreateReport` from src/irwin/api.rs. -/
def createReportOfRequest (request : Request) : CreateReport :=
  { user_id := request.user.id
    origin := request.origin
    report_type := .irwin
    games := request.games.map (fun g => g.id) }

/-- `precedence_for_origin` from src/deepq/api.rs. -/
def precedence_for_origin (origin : ReportOrigin) : Int :=
  match origin with
  | .moderator => 1000000
  | .leaderboard => 1000
  | .tournament => 100
  | .random => 10

/-- `From<Request> for Vec<CreateJob>` from src/irwin/api.rs: one `Deep` job
    per game, precedence from the origin, `report_id` not yet bound. -/
def createJobsOfRequest (request : Request) : List CreateJob :=
  request.games.map (fun g =>
    { game_id := g.id
      report_id := none
      analysis_type := .deep
      precedence := precedence_for_origin request.origin })

/-- `insert_one_game` from src/deepq/api.rs: `update_one` keyed on the game
    id, with `upsert: true`, carrying the full document — replace the stored
    game when the id exists, insert it otherwise. -/
def insert_one_game (store : Store) (create : CreateGame) : Store :=
  let game : Game :=
    { _id := create.game_id, emts := create.emts, pgn := create.pgn,
      black := create.black, white := create.white }
  if store.games.any (fun g => g._id = game._id) then
    { store with games := updateFirst (fun g => g._id = game._id) (fun _ => game) store.games }
  else
    { store with games := store.games ++ [game] }

/-- `insert_one_report` from src/deepq/api.rs together with
    `From<CreateReport> for Report` from src/deepq/model.rs: mint a fresh id,
    `sent_to_irwin = false`, `date_completed = null`, and insert. -/
def insert_one_report (store : Store) (create : CreateReport) (now : Int) :
    ReportId × Store :=
  let report : Report :=
    { _id := store.nextId
      user_id := create.user_id
      date_requested := now
      date_completed := none
      origin := create.origin
      report_type := create.report_type
      games := create.games
      sent_to_irwin := false }
  (report._id,
    { store with reports := store.reports ++ [report], nextId := store.nextId + 1 })

/-- `insert_one_job` from src/fishnet/api.rs together with
    `From<CreateJob> for Job` from src/fishnet/model.rs: mint a fresh id,
    `owner = null`, `is_complete = false`, `date_last_updated = now`, insert. -/
def insert_one_job (store : Store) (create : CreateJob) (now : Int) :
    JobId × Store :=
  let job : Job :=
    { _id := store.nextId
      game_id := create.game_id
      analysis_type := create.analysis_type
      precedence := create.precedence
      owner := none
      date_last_updated := now
      report_id := create.report_id
      is_complete := false }
  (job._id,
    { store with jobs := store.jobs ++ [job], nextId := store.nextId + 1 })

/-- `collect::<Result<Vec<_>>>()`: sequence a fallible conversion over a
    list, stopping at the first failure. -/
def collectResults (f : α → Except Error β) : List α → Except Error (List β)
  | [] => .ok []
  | x :: xs =>
      match f x with
      | .error e => .error e
      | .ok y =>
          match collectResults f xs with
          | .error e => .error e
          | .ok ys => .ok (y :: ys)

/-- `add_to_queue` from src/irwin/api.rs: convert every game SAN→UCI first
    (failing the whole request before any write), then upsert the games,
    insert one report, and insert one job per game bound to the report. -/
def add_to_queue (lib : ChessLib) (store : Store) (request : Request)
    (now : Int) : Except Error Unit × Store :=
  match collectResults (createGameOfRequestGame lib) request.games with
  | .error e => (.error e, store)
  | .ok games_with_uci =>
      let store1 := games_with_uci.foldl insert_one_game store
      let (report_id, store2) := insert_one_report store1 (createReportOfRequest request) now
      let fishnet_jobs :=
        (createJobsOfRequest request).map (fun j => { j with report_id := some report_id })
      let store3 := fishnet_jobs.foldl (fun s j => (insert_one_job s j now).2) store2
      (.ok (), store3)

/-! ## src/irwin/api.rs — the downstream (Irwin) payload -/

/-- `EngineEval` from src/irwin/api.rs. -/
structure EngineEval where
  cp : Option Int
  mate : Option Int
deriving DecidableEq

/-- `EngineEval::flip` from src/irwin/api.rs: negate whichever component is
    present. -/
def EngineEval.flip (e : EngineEval) : EngineEval :=
  { cp := e.cp.map (fun cp => -cp), mate := e.mate.map (fun mate => -mate) }

/-- `From<Score> for EngineEval` from src/irwin/api.rs. -/
def EngineEval.ofScore (s : Score) : EngineEval :=
  match s with
  | .cp cp => { cp := some cp, mate := none }
  | .mate m => { cp := none, mate := some m }

/-- `Analysis` from src/irwin/api.rs. -/
structure Analysis where
  uci : String
  engine_eval : EngineEval
deriving DecidableEq

/-- The score extraction of the `Matrix` arm of `Analysis::from_ply_analysis`:
    `m.score.iter().find(|d| d.iter().flatten().count() > 0)`, then
    `pvs.iter().flatten().last()` — the first row holding any score, and the
    last present score of that row. -/
def matrixExtract (score : List (List (Option Score))) : Option Score :=
  (score.find? (fun d => 0 < (d.filterMap id).length)).bind
    (fun pvs => (pvs.filterMap id).getLast?)

/-- `Analysis::from_ply_analysis` from src/irwin/api.rs: `Best` yields its
    score (the `flip` flag is not consulted in this arm); `Matrix` yields the
    extracted score, flipped when `flip` is set; `Skipped`/`Empty` and a
    scoreless matrix fail with `IncompleteIrwinAnalysis`. -/
def Analysis.from_ply_analysis (uci : Uci) (ply_analysis : PlyAnalysis)
    (flip : Bool) : Except Error Analysis :=
  match ply_analysis with
  | .best m => .ok { uci := uci, engine_eval := EngineEval.ofScore m.score }
  | .matrix m =>
      match matrixExtract m.score with
      | some s =>
          let engine_eval := EngineEval.ofScore s
          .ok { uci := uci
                engine_eval := if flip then engine_eval.flip else engine_eval }
      | none => .error .incompleteIrwinAnalysis
  | _ => .error .incompleteIrwinAnalysis

/-- `AnalyzedPosition` from src/irwin/api.rs. -/
structure AnalyzedPosition where
  id : String
  analyses : List Analysis
deriving DecidableEq

/-- `IrwinGame` from src/irwin/api.rs. -/
structure IrwinGame where
  id : String
  white : String
  black : String
  pgn : List String
  emts : Option (List Int)
  analysis : Option (List EngineEval)
  analysed : Bool
deriving DecidableEq

/-- `IrwinJob` from src/irwin/api.rs. -/
structure IrwinJob where
  player_id : String
  games : List IrwinGame
  analyzed_positions : List AnalyzedPosition
deriving DecidableEq

/-- `TryFrom<Game> for IrwinGame` from src/irwin/api.rs: replay the stored UCI
    moves from the starting position reconstructing SAN tokens (the SAN is
    produced against the post-move position, as in the source), with
    `analysis = null` and `analysed = false`. -/
def irwinGameOfGame (lib : ChessLib) (game : Game) : Except Error IrwinGame :=
  match go lib lib.start game.pgn with
  | .error e => .error e
  | .ok sans =>
      .ok { id := game._id
            white := (game.white.getD "Unknown (white)")
            black := (game.black.getD "Unknown (black)")
            pgn := sans
            emts := some game.emts
            analysis := none
            analysed := false }
where
  go (lib : ChessLib) : Position → List Uci → Except Error (List San)
    | _, [] => .ok []
    | pos, uci :: rest =>
        match lib.uciToMove pos uci with
        | none => .error .uciError
        | some m =>
            match lib.play pos m with
            | none => .error .positionError
            | some pos' =>
                match go lib pos' rest with
                | .error e => .error e
                | .ok sans => .ok (lib.sanFromMove pos' m :: sans)

/-- The per-game eval loop of `irwin_job_from_report` from src/irwin/api.rs:
    walk `game.pgn.zip(game_analysis.analysis)` with its enumeration index,
    extracting each ply's engine eval with `flip = (index % 2 == 1)` and
    replaying the move; a missing ply slot fails with
    `IncompleteIrwinAnalysis`. -/
def irwin_evals (lib : ChessLib) :
    Nat → Position → List (Uci × Option PlyAnalysis) →
    Except Error (List EngineEval)
  | _, _, [] => .ok []
  | num, pos, (uci, some analysis) :: rest =>
      match Analysis.from_ply_analysis uci analysis (num % 2 == 1) with
      | .error e => .error e
      | .ok a =>
          match lib.uciToMove pos uci with
          | none => .error .uciError
          | some m =>
              match lib.play pos m with
              | none => .error .positionError
              | some pos' =>
                  match irwin_evals lib (num + 1) pos' rest with
                  | .error e => .error e
                  | .ok evals => .ok (a.engine_eval :: evals)
  | _, _, (_, none) :: _ => .error .incompleteIrwinAnalysis

/-- The body of the per-analysis loop of `irwin_job_from_report`: skip the
    analysis when its game is missing, otherwise build the `IrwinGame` and its
    evals. -/
def irwinGamesOfAnalyses (lib : ChessLib) (store : Store) :
    List GameAnalysis → Except Error (List IrwinGame)
  | [] => .ok []
  | game_analysis :: rest =>
      match store.games.find? (fun g => g._id = game_analysis.game_id) with
      | none => irwinGamesOfAnalyses lib store rest
      | some game =>
          match irwinGameOfGame lib game with
          | .error e => .error e
          | .ok irwin_game =>
              match irwin_evals lib 0 lib.start (game.pgn.zip game_analysis.analysis) with
              | .error e => .error e
              | .ok irwin_evals =>
                  match irwinGamesOfAnalyses lib store rest with
                  | .error e => .error e
                  | .ok games =>
                      .ok ({ irwin_game with
                              analysis := some irwin_evals
                              analysed := true } :: games)

/-- `irwin_job_from_report` from src/irwin/api.rs: collect the report's jobs,
    the analyses stored against those jobs, and build one analysed
    `IrwinGame` per analysis whose game is present. -/
def irwin_job_from_report (lib : ChessLib) (store : Store) (report : Report) :
    Except Error IrwinJob :=
  let jobs := store.jobs.filter (fun j => j.report_id = some report._id)
  let analyzed_games := store.analyses.filter
    (fun a => (jobs.map (fun j => j._id)).contains a.job_id)
  match irwinGamesOfAnalyses lib store analyzed_games with
  | .error e => .error e
  | .ok games =>
      .ok { player_id := report.user_id
            games := games
            analyzed_positions := [] }

/-! ## src/irwin/api.rs — the aggregator -/

/-- The value of an `f64` computation in the aggregator: either NaN (the
    result of `0/0`) or an exact number.  The only division performed is of
    two document counts, `complete / (complete + incomplete)`; for a zero
    denominator IEEE 754 yields NaN, otherwise the value is modelled exactly
    as a rational. -/
inductive FVal
  | nan
  | val (q : ℚ)
deriving DecidableEq

/-- The comparison `percentage >= 1f64` of `update_report_completeness`:
    false for NaN (every IEEE comparison with NaN is false). -/
def fgeOne (v : FVal) : Bool :=
  match v with
  | .nan => false
  | .val q => 1 ≤ q

/-- `report_complete_percentage` from src/irwin/api.rs: over the jobs with
    this report's id, `complete / (complete + incomplete)`. -/
def report_complete_percentage (store : Store) (report : Report) : FVal :=
  let jobs := store.jobs.filter (fun j => j.report_id = some report._id)
  let complete := (jobs.filter (fun j => j.is_complete)).length
  let incomplete := (jobs.filter (fun j => ¬j.is_complete)).length
  if complete + incomplete = 0 then .nan
  else .val ((complete : ℚ) / ((complete : ℚ) + (incomplete : ℚ)))

/-- Modelled from the spec: `atomically_update_sent_to_irwin` is imported from
    `crate::deepq::api` by src/irwin/api.rs but absent from the sources.
    Spec §4.6 step 5: atomic compare-and-swap
    `update_one(_id = r ∧ sent_downstream = false,
    {sent_downstream ← true, completed_at ← now})`, with the returned document
    signalling whether this call was the winner.  One pass over the report
    collection: flip the first report matching the filter and return it;
    return nothing (and change nothing) when no report matches. -/
def casList (id : ReportId) (now : Int) :
    List Report → Option Report × List Report
  | [] => (none, [])
  | r :: rs =>
      if r._id = id ∧ r.sent_to_irwin = false then
        let r' := { r with sent_to_irwin := true, date_completed := some now }
        (some r', r' :: rs)
      else
        let (w, rs') := casList id now rs
        (w, r :: rs')

/-- Modelled from the spec: the store-level wrapper of `casList`
    (see `casList` for the missing source function). -/
def atomically_update_sent_to_irwin (store : Store) (id : ReportId)
    (now : Int) : Option Report × Store :=
  let (w, rs) := casList id now store.reports
  (w, { store with reports := rs })

/-- The observable outcome of one `update_report_completeness` invocation:
    the ratio was below 1 (or undefined) and the call stopped; the CAS was
    lost ("already submitted"); or the CAS was won and the downstream payload
    was built (the build itself may fail). -/
inductive AggOutcome
  | notComplete
  | alreadySubmitted
  | submitted (payload : Except Error IrwinJob)

/-- Whether the invocation won the CAS and proceeded to build the payload. -/
def AggOutcome.isSubmitted : AggOutcome → Bool
  | .submitted _ => true
  | _ => false

/-- The part of `update_report_completeness` (src/irwin/api.rs) after the
    completion ratio has been read: compare the observed percentage with 1,
    attempt the CAS when complete, and build the Irwin payload exactly when
    this call won the CAS.  The observed percentage is a parameter so that
    concurrent invocations, whose reads interleave arbitrarily, can be
    modelled; only the CAS serialises on the store. -/
def aggregatorInvocation (lib : ChessLib) (store : Store) (report : Report)
    (observed : FVal) (now : Int) : AggOutcome × Store :=
  if fgeOne observed then
    match atomically_update_sent_to_irwin store report._id now with
    | (some _, s') => (.submitted (irwin_job_from_report lib s' report), s')
    | (none, s') => (.alreadySubmitted, s')
  else (.notComplete, store)

/-- `update_report_completeness` from src/irwin/api.rs: read the report's
    completion percentage, then proceed as `aggregatorInvocation`. -/
def update_report_completeness (lib : ChessLib) (store : Store)
    (report : Report) (now : Int) : AggOutcome × Store :=
  aggregatorInvocation lib store report (report_complete_percentage store report) now

/-- A serialised run of aggregator invocations for one report: each invocation
    carries the completion percentage it observed, and its CAS executes
    against the store state left by the previous invocations. -/
def aggregatorRun (lib : ChessLib) (store : Store) (report : Report)
    (now : Int) : List FVal → List AggOutcome × Store
  | [] => ([], store)
  | v :: vs =>
      let (outcome, s') := aggregatorInvocation lib store report v now
      let (outcomes, s'') := aggregatorRun lib s' report now vs
      (outcome :: outcomes, s'')

/-! ## src/fishnet/handlers.rs — the analysis sink and the worker HTTP surface -/

/-- `nodes_for_job` from src/fishnet/handlers.rs. -/
def nodes_for_job (job : Job) : Nodes :=
  match job.analysis_type with
  | .userAnalysis => { nnue := 2250000, classical := 4050000 }
  | .systemAnalysis => { nnue := 2250000, classical := 4050000 }
  | .deep => { nnue := 2500000, classical := 4500000 }

/-- `multipv_for_job` from src/fishnet/handlers.rs. -/
def multipv_for_job (job : Job) : Option Nat :=
  match job.analysis_type with
  | .deep => some 5
  | _ => none

/-- `depth_for_job` from src/fishnet/handlers.rs. -/
def depth_for_job (_job : Job) : Option Nat := none

/-- `skip_positions_for_job` from src/fishnet/handlers.rs. -/
def skip_positions_for_job (job : Job) : List Nat :=
  match job.analysis_type with
  | .userAnalysis => [0, 1, 2, 3, 4, 5, 6, 7, 8, 9]
  | .systemAnalysis => [0, 1, 2, 3, 4, 5, 6, 7, 8, 9]
  | .deep => []

/-- `StockfishFlavor` from src/fishnet/handlers.rs. -/
inductive StockfishFlavor
  | nnue
  | classical
deriving DecidableEq

/-- `AnalysisReport` from src/fishnet/handlers.rs (the `fishnet` and
    `stockfish` body sections flattened into their fields). -/
structure AnalysisReport where
  version : String
  api_key : Key
  flavor : StockfishFlavor
  analysis : List (Option PlyAnalysis)
deriving DecidableEq

/-- `AnalysisReport::is_complete` from src/fishnet/handlers.rs: no null slot
    in the analysis array. -/
def AnalysisReport.is_complete (report : AnalysisReport) : Bool :=
  (report.analysis.filter (fun o => o.isNone)).length = 0

/-- `From<UpdateGameAnalysis> for GameAnalysis` from src/deepq/api.rs: the
    conversion mints a FRESH `_id` (`ObjectId::new()`, here the supplied
    fresh id) and copies every other field. -/
def gameAnalysisOfUpdate (analysis : UpdateGameAnalysis) (freshId : ObjectId) :
    GameAnalysis :=
  { _id := freshId
    job_id := analysis.job_id
    game_id := analysis.game_id
    source_id := analysis.source_id
    analysis := analysis.analysis
    requested_pvs := analysis.requested_pvs
    requested_depth := analysis.requested_depth
    requested_nodes := analysis.requested_nodes }

/-- `upsert_one_game_analysis` from src/deepq/api.rs: convert (minting a
    fresh `_id`), then `update_one` keyed on that fresh `_id` with
    `upsert: true` and the full document — replace when a document with that
    id exists, insert otherwise. -/
def upsert_one_game_analysis (store : Store) (analysis : UpdateGameAnalysis) :
    Store :=
  let ga : GameAnalysis := gameAnalysisOfUpdate analysis store.nextId
  if store.analyses.any (fun a => a._id = ga._id) then
    { store with
        analyses := updateFirst (fun a => a._id = ga._id) (fun _ => ga) store.analyses
        nextId := store.nextId + 1 }
  else
    { store with analyses := store.analyses ++ [ga], nextId := store.nextId + 1 }

/-- Modelled from the spec: `api::set_complete` is called by
    `save_job_analysis` (src/fishnet/handlers.rs) but absent from the
    sources.  Spec §4.5 step 4: set `is_complete = true` on the job. -/
def set_complete (store : Store) (id : JobId) : Store :=
  { store with
      jobs := updateFirst (fun j => j._id = id)
        (fun j => { j with is_complete := true }) store.jobs }

/-- The rejections that can arise on the worker HTTP surface
    (src/error.rs `HttpError` plus warp's built-in header rejection). -/
inductive Rejection
  | invalidHeader
  | unauthenticated
  | forbidden
  | notFound
deriving DecidableEq

/-- HTTP statuses of the worker surface. -/
inductive HttpStatus
  | ok
  | noContent
  | unauthorized
  | forbidden
  | notFound
  | serverError
deriving DecidableEq

/-- `recover` from src/http.rs: map a rejection to a response status.  A
    rejection it does not recognise (such as warp's invalid-header rejection)
    falls through to 500. -/
def recoverStatus (r : Rejection) : HttpStatus :=
  match r with
  | .notFound => .notFound
  | .unauthenticated => .unauthorized
  | .forbidden => .forbidden
  | .invalidHeader => .serverError

/-- `FromStr for HeaderKey` from src/fishnet/filters.rs: strip the literal
    `Bearer ` from the Authorization header value (`strip_prefix`). -/
def parseHeaderKey (s : String) : Option Key :=
  if s.data.take 7 = "Bearer ".data then some ⟨s.data.drop 7⟩ else none

/-- The `header_authorization_required` filter chain of
    src/fishnet/handlers.rs `mount`: extract the bearer key from the header,
    resolve it (`api_user_from_header`), fail with 401 when it does not
    resolve (`required_or_unauthenticated`), then `f::authorize` →
    `Authorized::new` (src/fishnet/filters.rs), which looks the user's key up
    again and fails with 403 only when that second lookup finds nothing.  No
    comparison of the user's `perms` against any analysis kind occurs. -/
def header_authorization_required (store : Store) (header : Option String) :
    Except Rejection ApiUser :=
  match header with
  | none => .error .invalidHeader
  | some s =>
      match parseHeaderKey s with
      | none => .error .invalidHeader
      | some key =>
          match get_api_user store key with
          | none => .error .unauthenticated
          | some api_user =>
              match get_api_user store api_user.key with
              | none => .error .forbidden
              | some _ => .ok api_user

/-- `save_job_analysis` from src/fishnet/handlers.rs (after authorization):
    fetch the job by `(_id, owner = user.key)` — 404 on a miss — then upsert
    the game analysis; when the report has no null slot, mark the job
    complete and publish `JobCompleted`. -/
def save_job_analysis (store : Store) (api_user : ApiUser) (job_id : JobId)
    (report : AnalysisReport) : Except Rejection Unit × Store :=
  match get_user_job store job_id api_user with
  | none => (.error .notFound, store)
  | some job =>
      let analysis : UpdateGameAnalysis :=
        { job_id := job_id
          game_id := job.game_id
          source_id := toString api_user._id
          analysis := report.analysis
          requested_pvs := (multipv_for_job job).map (fun v => (v : Int))
          requested_depth := (depth_for_job job).map (fun v => (v : Int))
          requested_nodes := nodes_for_job job }
      let store1 := upsert_one_game_analysis store analysis
      if report.is_complete then (.ok (), set_complete store1 job._id)
      else (.ok (), store1)

/-- The `POST /analysis/{job_id}` endpoint from src/fishnet/handlers.rs
    `mount`: the authorization chain, then `save_job_analysis`, then
    `json_object_or_no_content` (the handler returns no object, hence
    `204 No Content` on success); rejections are shaped by `recover`. -/
def analysisEndpoint (store : Store) (header : Option String) (job_id : JobId)
    (report : AnalysisReport) : HttpStatus × Store :=
  match header_authorization_required store header with
  | .error r => (recoverStatus r, store)
  | .ok api_user =>
      match save_job_analysis store api_user job_id report with
      | (.error r, s') => (recoverStatus r, s')
      | (.ok _, s') => (.noContent, s')

/-- The documents that a sequence of analysis submissions deposits: one per
    submission, with consecutively minted ids. -/
def submissionDocs : ObjectId → List UpdateGameAnalysis → List GameAnalysis
  | _, [] => []
  | n, u :: us => gameAnalysisOfUpdate u n :: submissionDocs (n + 1) us

/-! ## Concrete fixtures used by witnesses and counterexamples -/

/-- A chess library in which no SAN or UCI token legalises. -/
def chessNone : ChessLib :=
  { sanToMove := fun _ _ => none
    uciFromMove := fun m => m
    uciToMove := fun _ _ => none
    sanFromMove := fun _ m => m
    play := fun _ _ => none
    start := 0 }

/-- A chess library in which every token legalises and conversion is the
    identity on the token. -/
def chessUnit : ChessLib :=
  { sanToMove := fun _ s => some s
    uciFromMove := fun m => m
    uciToMove := fun _ u => some u
    sanFromMove := fun _ m => m
    play := fun p _ => some (p + 1)
    start := 0 }

/-- A Deep-permitted worker with an all-lowercase key. -/
def userDeep : ApiUser :=
  { _id := 1, key := "wka", user := none, name := "deep worker", perms := [.deep] }

/-- A worker permitted only user analysis. -/
def userUA : ApiUser :=
  { _id := 2, key := "wkb", user := none, name := "ua worker", perms := [.userAnalysis] }

/-- A Deep-permitted worker whose key has upper-case letters. -/
def userUpper : ApiUser :=
  { _id := 3, key := "WK", user := none, name := "upper worker", perms := [.deep] }

/-- A queued Deep job with the given id, precedence and timestamp. -/
def mkQueuedJob (id : JobId) (prec : Int) (d : Int) : Job :=
  { _id := id, game_id := "g1", analysis_type := .deep, precedence := prec,
    owner := none, date_last_updated := d, report_id := none, is_complete := false }

/-- An unshipped report. -/
def report0 : Report :=
  { _id := 100, user_id := "alice", date_requested := 0, date_completed := none,
    origin := .moderator, report_type := .irwin, games := ["g1"],
    sent_to_irwin := false }

def emptyStore : Store :=
  { jobs := [], reports := [], games := [], analyses := [], apiusers := [], nextId := 0 }

def storeC1 : Store := { emptyStore with reports := [report0], nextId := 200 }

def storeC2 : Store :=
  { emptyStore with
      jobs := [mkQueuedJob 1 10 5, mkQueuedJob 2 1000000 9, mkQueuedJob 3 1000000 4]
      apiusers := [userDeep]
      nextId := 50 }

def storeUpper : Store :=
  { emptyStore with jobs := [mkQueuedJob 1 10 5], apiusers := [userUpper], nextId := 50 }

/-- A Deep job held by the lowercase form of `userUpper`'s key (the form
    `assign_job` stores). -/
def jobHeldLower : Job :=
  { mkQueuedJob 7 10 5 with owner := some "wk" }

def storeC3 : Store :=
  { emptyStore with jobs := [jobHeldLower], apiusers := [userUpper], nextId := 50 }

/-- A Deep job held by `userUA`'s key. -/
def jobHeldUA : Job :=
  { mkQueuedJob 10 10 5 with owner := some "wkb" }

def storeC4 : Store :=
  { emptyStore with jobs := [jobHeldUA], apiusers := [userUA], nextId := 50 }

/-- A partial analysis report (one null slot). -/
def partialReport : AnalysisReport :=
  { version := "1", api_key := "wkb", flavor := .nnue, analysis := [none] }

def reqC5game : RequestGame :=
  { id := "g1", white := "w", black := "b", emts := none,
    pgn := ["e4"], analysis := none }

def reqC5 : Request :=
  { t := "report"
    origin := .moderator
    user := { id := "alice", titled := false, engine := false, games := 1 }
    games := [reqC5game] }

def bm7 : BestMove :=
  { pv := [], depth := 10, score := .cp 7, time := 1, nodes := 1, nps := none }

def bm50 : BestMove :=
  { pv := [], depth := 10, score := .cp 50, time := 1, nodes := 1, nps := none }

def mtx55 : MatrixAnalysis :=
  { pv := [], score := [[some (.cp 11), some (.cp 55)]], depth := 10,
    nodes := 1, time := 1, nps := none }

def pairsBest : List (Uci × Option PlyAnalysis) :=
  [("u1", some (.best bm7)), ("u2", some (.best bm50))]

def pairsMix : List (Uci × Option PlyAnalysis) :=
  [("u1", some (.best bm7)), ("u2", some (.matrix mtx55))]

def nodesDeep : Nodes := { nnue := 2500000, classical := 4500000 }

def subU1 : UpdateGameAnalysis :=
  { job_id := 5, game_id := "g1", source_id := "2",
    analysis := [some (.best bm7)], requested_pvs := some 5,
    requested_depth := none, requested_nodes := nodesDeep }

def subU2 : UpdateGameAnalysis :=
  { job_id := 5, game_id := "g1", source_id := "2",
    analysis := [none], requested_pvs := some 5,
    requested_depth := none, requested_nodes := nodesDeep }

def gaOld : GameAnalysis := gameAnalysisOfUpdate subU1 3

def storeC7 : Store := { emptyStore with analyses := [gaOld], nextId := 100 }

def storeC8 : Store :=
  { emptyStore with jobs := [mkQueuedJob 1 10 1, mkQueuedJob 2 10 2], nextId := 50 }

def storeC10 : Store :=
  { emptyStore with
      jobs := [mkQueuedJob 1 10 5, mkQueuedJob 2 10 6]
      apiusers := [userDeep]
      nextId := 50 }

/-- The winning job of `assign_job storeC2 userDeep`: highest precedence,
    and the earlier-queued of the two with that precedence. -/
def jobC2win : Job := mkQueuedJob 3 1000000 4

/-- The store after that assignment: only the winner's owner changes. -/
def storeC2After : Store :=
  { storeC2 with
      jobs := [mkQueuedJob 1 10 5, mkQueuedJob 2 1000000 9,
               { jobC2win with owner := some "wka" }] }

/-- An empty store with a fresh-id counter ahead of every stored id. -/
def storeFresh : Store := { emptyStore with nextId := 100 }

/-- The evals extracted from `pairsMix` (best unflipped, matrix flipped at
    the odd index). -/
def evalsMix : List EngineEval :=
  [{ cp := some 7, mate := none }, { cp := some (-55), mate := none }]

/-! ## Helper lemmas about sorted selection -/

theorem foldl_choose_mem (lt : α → α → Bool) :
    ∀ (l : List α) (a : α),
      l.foldl (fun acc y => if lt y acc then y else acc) a ∈ a :: l := by
  intro l
  induction l with
  | nil => intro a; simp
  | cons y ys ih =>
      intro a
      by_cases h : lt y a = true
      · have := ih y
        simp only [List.foldl_cons, h, if_true]
        rcases List.mem_cons.mp this with h1 | h1
        · simp [h1]
        · simp [h1]
      · have hb : lt y a = false := by simpa using h
        have := ih a
        simp only [List.foldl_cons, hb, Bool.false_eq_true, if_false]
        rcases List.mem_cons.mp this with h1 | h1
        · simp [h1]
        · simp [h1]

theorem chooseFirst_mem (lt : α → α → Bool) (l : List α) (x : α)
    (h : chooseFirst lt l = some x) : x ∈ l := by
  cases l with
  | nil => simp [chooseFirst] at h
  | cons a as =>
      simp only [chooseFirst, Option.some.injEq] at h
      have := foldl_choose_mem lt as a
      rw [h] at this
      simpa using this

theorem foldl_choose_not_lt_pres (lt : α → α → Bool)
    (htrans : ∀ a b c, lt a b = true → lt b c = true → lt a c = true) :
    ∀ (l : List α) (a x : α), lt x a = false →
      lt x (l.foldl (fun acc y => if lt y acc then y else acc) a) = false := by
  intro l
  induction l with
  | nil => intro a x h; simpa using h
  | cons y ys ih =>
      intro a x h
      by_cases hy : lt y a = true
      · simp only [List.foldl_cons, hy, if_true]
        apply ih
        by_cases hxy : lt x y = true
        · exact absurd (htrans x y a hxy hy) (by simp [h])
        · simpa using hxy
      · have hb : lt y a = false := by simpa using hy
        simp only [List.foldl_cons, hb, Bool.false_eq_true, if_false]
        exact ih a x h

theorem foldl_choose_not_lt (lt : α → α → Bool)
    (htrans : ∀ a b c, lt a b = true → lt b c = true → lt a c = true)
    (hirr : ∀ a, lt a a = false) :
    ∀ (l : List α) (a x : α), x ∈ a :: l →
      lt x (l.foldl (fun acc y => if lt y acc then y else acc) a) = false := by
  intro l
  induction l with
  | nil =>
      intro a x hx
      simp only [List.mem_singleton] at hx
      subst hx
      simpa using hirr x
  | cons y ys ih =>
      intro a x hx
      by_cases hy : lt y a = true
      · simp only [List.foldl_cons, hy, if_true]
        rcases List.mem_cons.mp hx with h1 | h1
        · subst h1
          apply foldl_choose_not_lt_pres lt htrans
          by_cases hxy : lt x y = true
          · exact absurd (htrans x y x hxy hy) (by simp [hirr])
          · simpa using hxy
        · exact ih y x (by simpa using h1)
      · have hb : lt y a = false := by simpa using hy
        simp only [List.foldl_cons, hb, Bool.false_eq_true, if_false]
        rcases List.mem_cons.mp hx with h1 | h1
        · exact ih a x (by simp [h1])
        · rcases List.mem_cons.mp h1 with h2 | h2
          · subst h2
            exact foldl_choose_not_lt_pres lt htrans ys a x hb
          · exact ih a x (by simp [h2])

theorem chooseFirst_not_lt (lt : α → α → Bool)
    (htrans : ∀ a b c, lt a b = true → lt b c = true → lt a c = true)
    (hirr : ∀ a, lt a a = false)
    (l : List α) (x : α) (h : chooseFirst lt l = some x) :
    ∀ y ∈ l, lt y x = false := by
  cases l with
  | nil => simp [chooseFirst] at h
  | cons a as =>
      simp only [chooseFirst, Option.some.injEq] at h
      intro y hy
      rw [← h]
      exact foldl_choose_not_lt lt htrans hirr as a y hy

theorem chooseFirst_eq_none (lt : α → α → Bool) (l : List α) :
    chooseFirst lt l = none ↔ l = [] := by
  cases l <;> simp [chooseFirst]

theorem assignLt_trans (a b c : Job)
    (h1 : assignLt a b = true) (h2 : assignLt b c = true) :
    assignLt a c = true := by
  simp only [assignLt, decide_eq_true_eq] at *
  omega

theorem assignLt_irrefl (a : Job) : assignLt a a = false := by
  simp only [assignLt, decide_eq_false_iff_not]
  omega

theorem oldestLt_trans (a b c : Job)
    (h1 : oldestLt a b = true) (h2 : oldestLt b c = true) :
    oldestLt a c = true := by
  simp only [oldestLt, decide_eq_true_eq] at *
  omega

theorem oldestLt_irrefl (a : Job) : oldestLt a a = false := by
  simp only [oldestLt, decide_eq_false_iff_not]
  omega

/-! ## Helper lemmas about `updateFirst` -/

theorem updateFirst_eq_map (p : α → Bool) (f : α → α) :
    ∀ l : List α, (l.filter p).length ≤ 1 →
      updateFirst p f l = l.map (fun x => if p x then f x else x) := by
  intro l
  induction l with
  | nil => intro _; rfl
  | cons x xs ih =>
      intro h
      by_cases hx : p x = true
      · have hxs : xs.filter p = [] := by
          by_contra hne
          have : 0 < (xs.filter p).length := List.length_pos.mpr hne
          simp only [List.filter_cons, hx, if_true, List.length_cons] at h
          omega
        have hnone : ∀ y ∈ xs, p y = false := by
          intro y hy
          by_contra hpy
          have : y ∈ xs.filter p := List.mem_filter.mpr ⟨hy, by simpa using hpy⟩
          simp [hxs] at this
        simp only [updateFirst, hx, if_true, List.map_cons]
        congr 1
        have : xs.map (fun x => if p x then f x else x) = xs.map id := by
          apply List.map_congr_left
          intro y hy
          simp [hnone y hy]
        simp [this]
      · have hb : p x = false := by simpa using hx
        have hlen : (xs.filter p).length ≤ 1 := by
          simpa [List.filter_cons, hb] using h
        simp [updateFirst, hb, ih hlen]

theorem filter_length_le_one_of_nodup_map (g : α → β) (c : β) (p : α → Bool)
    (hp : ∀ x, p x = true → g x = c) :
    ∀ l : List α, (l.map g).Nodup → (l.filter p).length ≤ 1 := by
  intro l
  induction l with
  | nil => intro _; simp
  | cons x xs ih =>
      intro hnd
      simp only [List.map_cons, List.nodup_cons] at hnd
      by_cases hx : p x = true
      · have hxs : xs.filter p = [] := by
          by_contra hne
          obtain ⟨y, hy⟩ := List.exists_mem_of_ne_nil _ hne
          have hy' := List.mem_filter.mp hy
          have : g y = c := hp y hy'.2
          have : g x ∈ xs.map g := by
            rw [hp x hx, ← this]
            exact List.mem_map_of_mem g hy'.1
          exact hnd.1 this
        simp [List.filter_cons, hx, hxs]
      · have hb : p x = false := by simpa using hx
        simp only [List.filter_cons, hb, Bool.false_eq_true, if_false]
        exact ih hnd.2

/-! ## Helper lemmas about the shipped-bit CAS -/

theorem casList_ids (id : ReportId) (now : Int) :
    ∀ l : List Report, (casList id now l).2.map Report._id = l.map Report._id := by
  intro l
  induction l with
  | nil => rfl
  | cons r rs ih =>
      by_cases h : (r._id = id ∧ r.sent_to_irwin = false)
      · simp [casList, h]
      · simp only [casList, if_neg h]
        simp [ih]

theorem casList_none_snd (id : ReportId) (now : Int) :
    ∀ l : List Report, (casList id now l).1 = none → (casList id now l).2 = l := by
  intro l
  induction l with
  | nil => intro _; rfl
  | cons r rs ih =>
      intro h
      by_cases hc : (r._id = id ∧ r.sent_to_irwin = false)
      · simp [casList, hc] at h
      · rcases he : casList id now rs with ⟨w, rs'⟩
        simp only [casList, if_neg hc, he] at h ⊢
        have h' : (casList id now rs).1 = none := by rw [he]; exact h
        have := ih h'
        rw [he] at this
        simp only [List.cons.injEq, true_and]
        exact this

theorem casList_none_of_allSent (id : ReportId) (now : Int) :
    ∀ l : List Report, (∀ r ∈ l, r._id = id → r.sent_to_irwin = true) →
      (casList id now l).1 = none := by
  intro l
  induction l with
  | nil => intro _; rfl
  | cons r rs ih =>
      intro h
      have hc : ¬(r._id = id ∧ r.sent_to_irwin = false) := by
        rintro ⟨h1, h2⟩
        have := h r (by simp) h1
        simp [this] at h2
      simp only [casList, if_neg hc]
      exact ih (fun x hx => h x (by simp [hx]))

theorem casList_some_allSent (id : ReportId) (now : Int) :
    ∀ l : List Report, (l.map Report._id).Nodup →
      (∃ w, (casList id now l).1 = some w) →
      ∀ r ∈ (casList id now l).2, r._id = id → r.sent_to_irwin = true := by
  intro l
  induction l with
  | nil => intro _ hw; simp [casList] at hw
  | cons r rs ih =>
      intro hnd hw x hx hxid
      simp only [List.map_cons, List.nodup_cons] at hnd
      by_cases hc : (r._id = id ∧ r.sent_to_irwin = false)
      · simp only [casList, if_pos hc] at hx
        rcases List.mem_cons.mp hx with h1 | h1
        · subst h1; rfl
        · exfalso
          apply hnd.1
          rw [hc.1, ← hxid]
          exact List.mem_map_of_mem Report._id h1
      · rcases he : casList id now rs with ⟨w, rs'⟩
        simp only [casList, if_neg hc, he] at hx hw
        rcases List.mem_cons.mp hx with h1 | h1
        · subst h1
          rcases Decidable.em (x.sent_to_irwin = true) with h2 | h2
          · exact h2
          · exact absurd ⟨hxid, by simpa using h2⟩ hc
        · have hw' : ∃ w', (casList id now rs).1 = some w' := by
            rw [he]; exact hw
          have := ih hnd.2 hw' x (by rw [he]; exact h1) hxid
          exact this

theorem atomically_eq (s : Store) (id : ReportId) (now : Int) :
    atomically_update_sent_to_irwin s id now =
      ((casList id now s.reports).1,
        { s with reports := (casList id now s.reports).2 }) := by
  unfold atomically_update_sent_to_irwin
  rcases hc : casList id now s.reports with ⟨w, rs⟩
  simp [hc]

theorem aggInv_not_submitted_store (lib : ChessLib) (s : Store) (report : Report)
    (v : FVal) (now : Int) (o : AggOutcome) (s' : Store)
    (h : aggregatorInvocation lib s report v now = (o, s'))
    (ho : o.isSubmitted = false) : s' = s := by
  unfold aggregatorInvocation at h
  by_cases hv : fgeOne v = true
  · rw [if_pos hv, atomically_eq] at h
    cases hc : (casList report._id now s.reports).1 with
    | some w =>
        rw [hc] at h
        simp only [Prod.mk.injEq] at h
        rw [← h.1] at ho
        simp [AggOutcome.isSubmitted] at ho
    | none =>
        rw [hc] at h
        simp only [Prod.mk.injEq] at h
        rw [← h.2, casList_none_snd report._id now s.reports hc]
  · rw [if_neg hv] at h
    simp only [Prod.mk.injEq] at h
    exact h.2.symm

theorem aggInv_submitted_allSent (lib : ChessLib) (s : Store) (report : Report)
    (v : FVal) (now : Int) (o : AggOutcome) (s' : Store)
    (hnd : (s.reports.map Report._id).Nodup)
    (h : aggregatorInvocation lib s report v now = (o, s'))
    (ho : o.isSubmitted = true) :
    ∀ r ∈ s'.reports, r._id = report._id → r.sent_to_irwin = true := by
  unfold aggregatorInvocation at h
  by_cases hv : fgeOne v = true
  · rw [if_pos hv, atomically_eq] at h
    cases hc : (casList report._id now s.reports).1 with
    | some w =>
        rw [hc] at h
        simp only [Prod.mk.injEq] at h
        intro r hr hrid
        rw [← h.2] at hr
        exact casList_some_allSent report._id now s.reports hnd ⟨w, hc⟩ r hr hrid
    | none =>
        rw [hc] at h
        simp only [Prod.mk.injEq] at h
        rw [← h.1] at ho
        simp [AggOutcome.isSubmitted] at ho
  · rw [if_neg hv] at h
    simp only [Prod.mk.injEq] at h
    rw [← h.1] at ho
    simp [AggOutcome.isSubmitted] at ho

theorem aggInv_allSent_noop (lib : ChessLib) (s : Store) (report : Report)
    (v : FVal) (now : Int)
    (hs : ∀ r ∈ s.reports, r._id = report._id → r.sent_to_irwin = true) :
    (aggregatorInvocation lib s report v now).1.isSubmitted = false ∧
      (aggregatorInvocation lib s report v now).2 = s := by
  unfold aggregatorInvocation
  by_cases hv : fgeOne v = true
  · rw [if_pos hv, atomically_eq]
    have hc := casList_none_of_allSent report._id now s.reports hs
    rw [hc]
    exact ⟨rfl, by rw [casList_none_snd report._id now s.reports hc]⟩
  · rw [if_neg hv]
    exact ⟨rfl, rfl⟩

theorem aggRun_allSent (lib : ChessLib) (report : Report) (now : Int) :
    ∀ (views : List FVal) (s : Store),
      (∀ r ∈ s.reports, r._id = report._id → r.sent_to_irwin = true) →
      ((aggregatorRun lib s report now views).1.countP AggOutcome.isSubmitted) = 0 := by
  intro views
  induction views with
  | nil => intro s _; simp [aggregatorRun]
  | cons v vs ih =>
      intro s hs
      rcases hinv : aggregatorInvocation lib s report v now with ⟨o, s'⟩
      have hno := aggInv_allSent_noop lib s report v now hs
      rw [hinv] at hno
      simp only at hno
      obtain ⟨ho, hs'⟩ := hno
      subst hs'
      simp only [aggregatorRun, hinv]
      rcases hrun : aggregatorRun lib s' report now vs with ⟨outcomes, s''⟩
      simp only [List.countP_cons, ho]
      have := ih s' hs
      rw [hrun] at this
      simpa using this

/-! ## Further helper lemmas -/

theorem updateFirst_no_match (p : α → Bool) (f : α → α) :
    ∀ l : List α, (∀ x ∈ l, p x = false) → updateFirst p f l = l := by
  intro l
  induction l with
  | nil => intro _; rfl
  | cons x xs ih =>
      intro h
      have hx := h x (by simp)
      simp only [updateFirst, hx, Bool.false_eq_true, if_false]
      rw [ih (fun y hy => h y (by simp [hy]))]

theorem collectResults_error (f : α → Except Error β) :
    ∀ l : List α, (∃ x ∈ l, ∃ e, f x = .error e) →
      ∃ e, collectResults f l = .error e := by
  intro l
  induction l with
  | nil => rintro ⟨x, hx, _⟩; simp at hx
  | cons y ys ih =>
      rintro ⟨x, hx, e, he⟩
      cases hy : f y with
      | error e' => exact ⟨e', by simp [collectResults, hy]⟩
      | ok v =>
          have hxy : x ∈ ys := by
            rcases List.mem_cons.mp hx with h1 | h1
            · subst h1; rw [hy] at he; cases he
            · exact h1
          obtain ⟨e'', he''⟩ := ih ⟨x, hxy, e, he⟩
          exact ⟨e'', by simp [collectResults, hy, he'']⟩

theorem irwin_evals_get (lib : ChessLib) :
    ∀ (pairs : List (Uci × Option PlyAnalysis)) (num : Nat) (pos : Position)
      (evals : List EngineEval),
      irwin_evals lib num pos pairs = .ok evals →
      ∀ (i : Nat) (uci : Uci) (pa : PlyAnalysis),
        pairs.get? i = some (uci, some pa) →
        ∃ a, Analysis.from_ply_analysis uci pa ((num + i) % 2 == 1) = .ok a ∧
          evals.get? i = some a.engine_eval := by
  intro pairs
  induction pairs with
  | nil => intro num pos evals h i uci pa hi; simp at hi
  | cons hd rest ih =>
      intro num pos evals h i uci pa hi
      rcases hd with ⟨u, oa⟩
      cases oa with
      | none => simp [irwin_evals] at h
      | some a0 =>
          cases hfp : Analysis.from_ply_analysis u a0 (num % 2 == 1) with
          | error e => simp [irwin_evals, hfp] at h
          | ok aa =>
              cases hum : lib.uciToMove pos u with
              | none => simp [irwin_evals, hfp, hum] at h
              | some m =>
                  cases hpl : lib.play pos m with
                  | none => simp [irwin_evals, hfp, hum, hpl] at h
                  | some pos' =>
                      cases hrec : irwin_evals lib (num + 1) pos' rest with
                      | error e => simp [irwin_evals, hfp, hum, hpl, hrec] at h
                      | ok evals' =>
                          have hev : evals = aa.engine_eval :: evals' := by
                            simp [irwin_evals, hfp, hum, hpl, hrec] at h
                            exact h.symm
                          cases i with
                          | zero =>
                              simp only [List.get?_cons_zero, Option.some.injEq,
                                Prod.mk.injEq] at hi
                              obtain ⟨h1, h2⟩ := hi
                              subst h1
                              have h2' : pa = a0 := by
                                cases h2; rfl
                              subst h2'
                              refine ⟨aa, ?_, ?_⟩
                              · simpa using hfp
                              · simp [hev]
                          | succ i' =>
                              obtain ⟨a, ha1, ha2⟩ :=
                                ih (num + 1) pos' evals' hrec i' uci pa (by simpa using hi)
                              refine ⟨a, ?_, ?_⟩
                              · have harith : num + 1 + i' = num + (i' + 1) := by omega
                                rw [harith] at ha1
                                exact ha1
                              · rw [hev, List.get?_cons_succ]
                                exact ha2

/-! ## Claims -/

/-- C1: for every report, across all invocations of the aggregator's
    job-completed handling — modelled as a serialised sequence of invocations,
    each observing an arbitrary completion ratio, with the shipped-bit CAS as
    the only shared write — at most one invocation wins the compare-and-swap
    on the report's `sent_downstream` bit and proceeds to build the downstream
    payload; every other invocation stops without building it. -/
theorem C1_exactly_once_ship (lib : ChessLib) (store : Store) (report : Report)
    (now : Int) (views : List FVal)
    (hnd : (store.reports.map Report._id).Nodup) :
    ((aggregatorRun lib store report now views).1.countP AggOutcome.isSubmitted) ≤ 1 := by
  have main : ∀ (vs : List FVal) (s : Store), (s.reports.map Report._id).Nodup →
      ((aggregatorRun lib s report now vs).1.countP AggOutcome.isSubmitted) ≤ 1 := by
    intro vs
    induction vs with
    | nil => intro s _; simp [aggregatorRun]
    | cons v vs' ih =>
        intro s hs
        rcases hinv : aggregatorInvocation lib s report v now with ⟨o, s'⟩
        simp only [aggregatorRun, hinv]
        rcases hrun : aggregatorRun lib s' report now vs' with ⟨outcomes, s''⟩
        simp only [List.countP_cons]
        by_cases ho : o.isSubmitted = true
        · have hsent := aggInv_submitted_allSent lib s report v now o s' hs hinv ho
          have hzero := aggRun_allSent lib report now vs' s' hsent
          rw [hrun] at hzero
          simp only at hzero
          simp [ho, hzero]
        · have hsf : o.isSubmitted = false := by simpa using ho
          have hss : s' = s := aggInv_not_submitted_store lib s report v now o s' hinv hsf
          subst hss
          have := ih s' hs
          rw [hrun] at this
          simp only at this
          simpa [hsf] using this
  exact main views store hnd

theorem C1_witness :
    (storeC1.reports.map Report._id).Nodup ∧
    ((aggregatorRun chessNone storeC1 report0 0 [.val 1, .val 1]).1.countP
        AggOutcome.isSubmitted) ≤ 1 :=
  ⟨by decide,
   C1_exactly_once_ship chessNone storeC1 report0 0 [.val 1, .val 1] (by decide)⟩

/-- C9: for a report with zero associated jobs, the job-completed handling
    computes the NaN ratio `0/0`, never attempts the `sent_downstream`
    compare-and-swap, never builds a payload, and leaves the store unchanged
    (`NaN >= 1` is false, so the not-complete branch is taken). -/
theorem C9_zero_jobs_not_complete (lib : ChessLib) (store : Store)
    (report : Report) (now : Int)
    (h : store.jobs.filter (fun j => j.report_id = some report._id) = []) :
    report_complete_percentage store report = .nan ∧
    update_report_completeness lib store report now = (.notComplete, store) := by
  have hp : report_complete_percentage store report = .nan := by
    simp [report_complete_percentage, h]
  refine ⟨hp, ?_⟩
  unfold update_report_completeness aggregatorInvocation
  rw [hp]
  simp [fgeOne]

theorem C9_witness :
    storeC1.jobs.filter (fun j => j.report_id = some report0._id) = [] ∧
    report_complete_percentage storeC1 report0 = .nan ∧
    update_report_completeness chessNone storeC1 report0 0 = (.notComplete, storeC1) :=
  ⟨by decide,
   C9_zero_jobs_not_complete chessNone storeC1 report0 0 (by decide)⟩

/-- C10: acquire imposes no per-worker bound: in the concrete state
    `storeC10` with two queued Deep jobs permitted to `userDeep`, two
    successive `assign_job` calls by that worker (no intervening abort or
    completion) leave two distinct jobs simultaneously owned by that worker's
    key. -/
theorem C10_no_per_worker_bound :
    (storeC10.jobs.filter
        (fun j => j.owner = none ∧ j.analysis_type ∈ userDeep.perms)).length = 2 ∧
    ((assign_job (assign_job storeC10 userDeep).2 userDeep).2.jobs.filter
        (fun j => j.owner = some userDeep.key)).length = 2 ∧
    ∃ j1 ∈ (assign_job (assign_job storeC10 userDeep).2 userDeep).2.jobs,
      ∃ j2 ∈ (assign_job (assign_job storeC10 userDeep).2 userDeep).2.jobs,
        j1._id ≠ j2._id ∧ j1.owner = some userDeep.key ∧
          j2.owner = some userDeep.key := by
  refine ⟨by decide, by decide, by decide⟩

/-- C2 counterexample: `assign_job` does not set the owner to the worker's
    key: the `Bson` conversion of `Key` lowercases it, so for `userUpper`
    (key `"WK"`) the claimed job's owner is `"wk"`, which differs from the
    worker's key. -/
theorem C2_counterexample :
    (mkQueuedJob 1 10 5) ∈ storeUpper.jobs ∧
    (mkQueuedJob 1 10 5).owner = none ∧
    (mkQueuedJob 1 10 5).analysis_type ∈ userUpper.perms ∧
    ((assign_job storeUpper userUpper).2.jobs.map Job.owner) = [some "wk"] ∧
    some "wk" ≠ some userUpper.key := by
  refine ⟨by decide, by decide, by decide, by decide, by decide⟩

/-- C2 amended: `assign_job` atomically claims — setting the owner to the
    LOWERCASED worker key — a job with owner null whose analysis kind is in
    the worker's permissions, of maximal precedence and, among equal
    precedences, of minimal `last_updated`; everything else in the store is
    unchanged.  When no such job exists it returns none and changes
    nothing. -/
theorem C2_assign_job_spec (store : Store) (api_user : ApiUser) :
    (∀ j s', assign_job store api_user = (some j, s') →
      j ∈ store.jobs ∧ j.owner = none ∧ j.analysis_type ∈ api_user.perms ∧
      (∀ k ∈ store.jobs, k.owner = none → k.analysis_type ∈ api_user.perms →
        k.precedence ≤ j.precedence ∧
        (k.precedence = j.precedence →
          j.date_last_updated ≤ k.date_last_updated)) ∧
      s'.jobs = store.jobs.map (fun k =>
        if k._id = j._id then { k with owner := some (keyBson api_user.key) }
        else k) ∧
      s'.reports = store.reports ∧ s'.games = store.games ∧
      s'.analyses = store.analyses ∧ s'.apiusers = store.apiusers ∧
      s'.nextId = store.nextId) ∧
    (∀ s', assign_job store api_user = (none, s') →
      s' = store ∧
      ∀ k ∈ store.jobs,
        ¬(k.owner = none ∧ k.analysis_type ∈ api_user.perms)) := by
  constructor
  · intro j s' h
    unfold assign_job at h
    cases hch : chooseFirst assignLt (store.jobs.filter
        (fun j => j.owner = none ∧ j.analysis_type ∈ api_user.perms)) with
    | none => rw [hch] at h; simp at h
    | some j0 =>
        rw [hch] at h
        simp only [Prod.mk.injEq, Option.some.injEq] at h
        obtain ⟨hj, hs⟩ := h
        subst hj
        have hmem := chooseFirst_mem assignLt _ j0 hch
        have hmem' := List.mem_filter.mp hmem
        have hprops : j0.owner = none ∧ j0.analysis_type ∈ api_user.perms := by
          simpa using hmem'.2
        refine ⟨hmem'.1, hprops.1, hprops.2, ?_, ?_, ?_, ?_, ?_, ?_, ?_⟩
        · intro k hk hk1 hk2
          have hkc : k ∈ store.jobs.filter
              (fun j => j.owner = none ∧ j.analysis_type ∈ api_user.perms) :=
            List.mem_filter.mpr ⟨hk, by simp [hk1, hk2]⟩
          have := chooseFirst_not_lt assignLt assignLt_trans assignLt_irrefl _ j0 hch k hkc
          simp only [assignLt, decide_eq_false_iff_not] at this
          push_neg at this
          exact this
        · rw [← hs]
        · rw [← hs]
        · rw [← hs]
        · rw [← hs]
        · rw [← hs]
        · rw [← hs]
  · intro s' h
    unfold assign_job at h
    cases hch : chooseFirst assignLt (store.jobs.filter
        (fun j => j.owner = none ∧ j.analysis_type ∈ api_user.perms)) with
    | some j0 => rw [hch] at h; simp at h
    | none =>
        rw [hch] at h
        simp only [Prod.mk.injEq] at h
        refine ⟨h.2.symm, ?_⟩
        have hnil := (chooseFirst_eq_none assignLt _).mp hch
        intro k hk hkp
        have : k ∈ store.jobs.filter
            (fun j => j.owner = none ∧ j.analysis_type ∈ api_user.perms) :=
          List.mem_filter.mpr ⟨hk, by simp [hkp.1, hkp.2]⟩
        rw [hnil] at this
        simp at this

theorem C2_witness :
    jobC2win ∈ storeC2.jobs ∧ jobC2win.owner = none ∧
    jobC2win.analysis_type ∈ userDeep.perms ∧
    (∀ k ∈ storeC2.jobs, k.owner = none → k.analysis_type ∈ userDeep.perms →
      k.precedence ≤ jobC2win.precedence ∧
      (k.precedence = jobC2win.precedence →
        jobC2win.date_last_updated ≤ k.date_last_updated)) ∧
    storeC2After.jobs = storeC2.jobs.map (fun k =>
      if k._id = jobC2win._id then { k with owner := some (keyBson userDeep.key) }
      else k) ∧
    storeC2After.reports = storeC2.reports ∧ storeC2After.games = storeC2.games ∧
    storeC2After.analyses = storeC2.analyses ∧
    storeC2After.apiusers = storeC2.apiusers ∧
    storeC2After.nextId = storeC2.nextId :=
  (C2_assign_job_spec storeC2 userDeep).1 jobC2win storeC2After (by decide)

/-- C3 counterexample: `abort` clears an owner that does NOT equal the
    caller's key: the filter compares against the lowercased key, so
    `userUpper` (key `"WK"`) clears a job owned by `"wk"`, although
    `some "wk" ≠ some "WK"`. -/
theorem C3_counterexample :
    jobHeldLower ∈ storeC3.jobs ∧
    jobHeldLower.owner ≠ some userUpper.key ∧
    ((unassign_job storeC3 userUpper 7).jobs.map Job.owner) = [none] := by
  refine ⟨by decide, by decide, by decide⟩

/-- C3 amended: `abort(u, id)` sets a job's owner to null iff its `_id` is
    `id` and its owner equals the LOWERCASED caller key (the `Bson`
    conversion of `Key` lowercases); every other field of that job, every
    other job, and every other collection are unchanged; when no job matches
    the filter it is a no-op that still returns success (the operation is
    total). -/
theorem C3_abort_frame (store : Store) (u : ApiUser) (id : ObjectId)
    (hnd : (store.jobs.map Job._id).Nodup) :
    (unassign_job store u id).jobs = store.jobs.map (fun j =>
      if j._id = id ∧ j.owner = some (keyBson u.key) then { j with owner := none }
      else j) ∧
    (unassign_job store u id).reports = store.reports ∧
    (unassign_job store u id).games = store.games ∧
    (unassign_job store u id).analyses = store.analyses ∧
    (unassign_job store u id).apiusers = store.apiusers ∧
    (unassign_job store u id).nextId = store.nextId ∧
    ((∀ j ∈ store.jobs, ¬(j._id = id ∧ j.owner = some (keyBson u.key))) →
      unassign_job store u id = store) := by
  have hle : (store.jobs.filter
      (fun j => j._id = id ∧ j.owner = some (keyBson u.key))).length ≤ 1 := by
    apply filter_length_le_one_of_nodup_map Job._id id
    · intro x hx
      simp only [decide_eq_true_eq] at hx
      exact hx.1
    · exact hnd
  refine ⟨?_, rfl, rfl, rfl, rfl, rfl, ?_⟩
  · show updateFirst (fun j => j._id = id ∧ j.owner = some (keyBson u.key))
        (fun j => { j with owner := none }) store.jobs = _
    rw [updateFirst_eq_map _ _ store.jobs hle]
    apply List.map_congr_left
    intro x _
    by_cases hx : (x._id = id ∧ x.owner = some (keyBson u.key)) <;> simp [hx]
  · intro hno
    have : updateFirst
        (fun j => j._id = id ∧ j.owner = some (keyBson u.key))
        (fun j => { j with owner := none }) store.jobs = store.jobs := by
      apply updateFirst_no_match
      intro x hx
      simpa using hno x hx
    unfold unassign_job
    rw [this]

theorem C3_witness :
    (unassign_job storeC3 userUpper 7).jobs = storeC3.jobs.map (fun j =>
      if j._id = 7 ∧ j.owner = some (keyBson userUpper.key) then
        { j with owner := none }
      else j) ∧
    (unassign_job storeC3 userUpper 7).reports = storeC3.reports ∧
    (unassign_job storeC3 userUpper 7).games = storeC3.games ∧
    (unassign_job storeC3 userUpper 7).analyses = storeC3.analyses ∧
    (unassign_job storeC3 userUpper 7).apiusers = storeC3.apiusers ∧
    (unassign_job storeC3 userUpper 7).nextId = storeC3.nextId ∧
    ((∀ j ∈ storeC3.jobs, ¬(j._id = 7 ∧ j.owner = some (keyBson userUpper.key))) →
      unassign_job storeC3 userUpper 7 = storeC3) :=
  C3_abort_frame storeC3 userUpper 7 (by decide)

/-- C8 counterexample: `oldest_job` does NOT minimise `last_updated`: with
    two queued Deep jobs stamped 1 and 2, it returns the one stamped 2 (the
    sort is `{date_last_updated: -1}`, i.e. descending). -/
theorem C8_counterexample :
    oldest_job storeC8 .deep = some (mkQueuedJob 2 10 2) ∧
    mkQueuedJob 1 10 1 ∈ storeC8.jobs ∧
    (mkQueuedJob 1 10 1).owner = none ∧
    (mkQueuedJob 1 10 1).analysis_type = .deep ∧
    (mkQueuedJob 1 10 1).date_last_updated
      < (mkQueuedJob 2 10 2).date_last_updated := by
  refine ⟨by decide, by decide, by decide, by decide, by decide⟩

/-- C8 amended: for every non-empty set of queued jobs (owner null) of a
    given analysis kind, `oldest_job` returns one that MAXIMISES
    `last_updated` (its sort is descending); when no such job exists it
    returns none. -/
theorem C8_oldest_job_spec (store : Store) (analysis_type : AnalysisType) :
    (∀ j, oldest_job store analysis_type = some j →
      j ∈ store.jobs ∧ j.owner = none ∧ j.analysis_type = analysis_type ∧
      ∀ k ∈ store.jobs, k.owner = none → k.analysis_type = analysis_type →
        k.date_last_updated ≤ j.date_last_updated) ∧
    (oldest_job store analysis_type = none ↔
      ∀ k ∈ store.jobs, ¬(k.owner = none ∧ k.analysis_type = analysis_type)) := by
  constructor
  · intro j h
    unfold oldest_job at h
    have hmem := chooseFirst_mem oldestLt _ j h
    have hmem' := List.mem_filter.mp hmem
    have hprops : j.owner = none ∧ j.analysis_type = analysis_type := by
      simpa using hmem'.2
    refine ⟨hmem'.1, hprops.1, hprops.2, ?_⟩
    intro k hk hk1 hk2
    have hkc : k ∈ store.jobs.filter
        (fun j => j.owner = none ∧ j.analysis_type = analysis_type) :=
      List.mem_filter.mpr ⟨hk, by simp [hk1, hk2]⟩
    have := chooseFirst_not_lt oldestLt oldestLt_trans oldestLt_irrefl _ j h k hkc
    simp only [oldestLt, decide_eq_false_iff_not] at this
    omega
  · unfold oldest_job
    rw [chooseFirst_eq_none]
    constructor
    · intro hnil k hk hkp
      have : k ∈ store.jobs.filter
          (fun j => j.owner = none ∧ j.analysis_type = analysis_type) :=
        List.mem_filter.mpr ⟨hk, by simp [hkp.1, hkp.2]⟩
      rw [hnil] at this
      simp at this
    · intro hall
      rw [List.filter_eq_nil_iff]
      intro k hk
      simpa using hall k hk

theorem C8_witness :
    mkQueuedJob 2 10 2 ∈ storeC8.jobs ∧
    (mkQueuedJob 2 10 2).owner = none ∧
    (mkQueuedJob 2 10 2).analysis_type = .deep ∧
    ∀ k ∈ storeC8.jobs, k.owner = none → k.analysis_type = .deep →
      k.date_last_updated ≤ (mkQueuedJob 2 10 2).date_last_updated :=
  (C8_oldest_job_spec storeC8 .deep).1 (mkQueuedJob 2 10 2) (by decide)

/-- C4 counterexample: a worker whose key resolves but whose permitted kinds
    exclude the operation's kind is NOT answered with 403.  `userUA`
    (perms = user analysis only) posts an analysis for the Deep job it holds:
    the response is 204 No Content, not 403 Forbidden. -/
theorem C4_counterexample :
    get_api_user storeC4 "wkb" = some userUA ∧
    AnalysisType.deep ∉ userUA.perms ∧
    jobHeldUA ∈ storeC4.jobs ∧ jobHeldUA.analysis_type = .deep ∧
    (analysisEndpoint storeC4 (some "Bearer wkb") 10 partialReport).1
      = HttpStatus.noContent ∧
    HttpStatus.noContent ≠ HttpStatus.forbidden := by
  refine ⟨by decide, by decide, by decide, by decide, by decide, by decide⟩

/-- C4 amended: the authorization chain checks only that the bearer key
    resolves; it never compares the worker's permitted analysis kinds with
    the operation, so whenever the presented key resolves to an ApiUser the
    chain succeeds with that user — regardless of its `perms` — and the
    handler runs (the chain's 403 arises only when the second lookup inside
    `Authorized::new` fails, which cannot follow a successful first
    lookup). -/
theorem C4_no_perm_check (store : Store) (s : String) (key : Key)
    (user : ApiUser)
    (hparse : parseHeaderKey s = some key)
    (hresolve : get_api_user store key = some user) :
    header_authorization_required store (some s) = .ok user := by
  have hk : user.key = key := by
    unfold get_api_user at hresolve
    have := List.find?_some hresolve
    simpa using this
  unfold header_authorization_required
  simp only [hparse, hresolve, hk]

theorem C4_witness :
    header_authorization_required storeC4 (some "Bearer wkb")
      = .ok userUA :=
  C4_no_perm_check storeC4 "Bearer wkb" "wkb" userUA (by decide) (by decide)

/-- C5: when any SAN move of any game in the request fails to legalise,
    `add_to_queue` returns an error and persists nothing: the store it
    returns is exactly the input store (no game upsert, no report insert, no
    job insert). -/
theorem C5_no_partial_persistence (lib : ChessLib) (store : Store)
    (request : Request) (now : Int)
    (h : ∃ g ∈ request.games, ∃ e, uci_from_san lib g.pgn = .error e) :
    (∃ e, (add_to_queue lib store request now).1 = .error e) ∧
    (add_to_queue lib store request now).2 = store := by
  have hc : ∃ e, collectResults (createGameOfRequestGame lib) request.games
      = .error e := by
    apply collectResults_error
    obtain ⟨g, hg, e, he⟩ := h
    refine ⟨g, hg, e, ?_⟩
    unfold createGameOfRequestGame
    rw [he]
  obtain ⟨e, he⟩ := hc
  unfold add_to_queue
  rw [he]
  exact ⟨⟨e, rfl⟩, rfl⟩

theorem C5_witness :
    uci_from_san chessNone reqC5game.pgn = Except.error Error.sanError ∧
    (∃ e, (add_to_queue chessNone emptyStore reqC5 0).1 = .error e) ∧
    (add_to_queue chessNone emptyStore reqC5 0).2 = emptyStore :=
  ⟨by decide,
   C5_no_partial_persistence chessNone emptyStore reqC5 0
     ⟨reqC5game, by decide, Error.sanError, by decide⟩⟩

/-- C6 counterexample: a ply at an odd index whose analysis is a `Best`
    variant yields its score UNNEGATED: in `pairsBest` the ply at index 1
    reports `cp 50` and the extracted eval is `cp 50`, not the negation
    `cp (-50)` the claim demands. -/
theorem C6_counterexample :
    pairsBest.get? 1 = some ("u2", some (.best bm50)) ∧
    irwin_evals chessUnit 0 chessUnit.start pairsBest
      = .ok [{ cp := some 7, mate := none }, { cp := some 50, mate := none }] ∧
    EngineEval.ofScore bm50.score = { cp := some 50, mate := none } ∧
    ({ cp := some 50, mate := none } : EngineEval)
      ≠ (EngineEval.ofScore bm50.score).flip := by
  refine ⟨by decide, by decide, by decide, by decide⟩

/-- C6 amended: in the eval extraction for the downstream payload, only
    `Matrix`-variant plies are sign-flipped at odd indices (and never at even
    indices); a `Best`-variant ply yields its engine-reported score unnegated
    at EVERY index, because `Analysis::from_ply_analysis` ignores the flip
    flag in its `Best` arm. -/
theorem C6_flip_behaviour (lib : ChessLib)
    (pairs : List (Uci × Option PlyAnalysis)) (evals : List EngineEval)
    (h : irwin_evals lib 0 lib.start pairs = .ok evals)
    (i : Nat) (uci : Uci) (pa : PlyAnalysis)
    (hp : pairs.get? i = some (uci, some pa)) :
    (∀ b, pa = .best b → evals.get? i = some (EngineEval.ofScore b.score)) ∧
    (∀ m, pa = .matrix m → ∃ s, matrixExtract m.score = some s ∧
      evals.get? i = some (if i % 2 = 1 then (EngineEval.ofScore s).flip
                           else EngineEval.ofScore s)) := by
  obtain ⟨a, ha, hev⟩ := irwin_evals_get lib pairs 0 lib.start evals h i uci pa hp
  rw [Nat.zero_add] at ha
  constructor
  · intro b hb
    subst hb
    unfold Analysis.from_ply_analysis at ha
    simp only [Except.ok.injEq] at ha
    rw [hev, ← ha]
  · intro m hm
    subst hm
    cases hs : matrixExtract m.score with
    | none => simp [Analysis.from_ply_analysis, hs] at ha
    | some s =>
        simp only [Analysis.from_ply_analysis, hs, Except.ok.injEq] at ha
        refine ⟨s, rfl, ?_⟩
        rw [hev, ← ha]
        rcases Nat.mod_two_eq_zero_or_one i with hpar | hpar
        · simp [hpar]
        · simp [hpar]

theorem C6_witness :
    (∀ b, PlyAnalysis.matrix mtx55 = .best b →
      evalsMix.get? 1 = some (EngineEval.ofScore b.score)) ∧
    (∀ m, PlyAnalysis.matrix mtx55 = .matrix m →
      ∃ s, matrixExtract m.score = some s ∧
        evalsMix.get? 1 = some (if 1 % 2 = 1 then (EngineEval.ofScore s).flip
                                 else EngineEval.ofScore s)) :=
  C6_flip_behaviour chessUnit pairsMix evalsMix (by decide) 1 "u2"
    (.matrix mtx55) (by decide)

/-- C7 counterexample: two analysis submissions for the same job leave TWO
    `GameAnalysis` documents for that job, not at most one: the conversion
    mints a fresh `_id` per submission, so the upsert never matches an
    existing document. -/
theorem C7_counterexample :
    ((upsert_one_game_analysis (upsert_one_game_analysis storeFresh subU1)
        subU2).analyses.filter (fun a => a.job_id = 5)).length = 2 ∧
    ¬(((upsert_one_game_analysis (upsert_one_game_analysis storeFresh subU1)
        subU2).analyses.filter (fun a => a.job_id = 5)).length ≤ 1) := by
  refine ⟨by decide, by decide⟩

/-- C7 amended: every analysis submission inserts a NEW `GameAnalysis`
    document (the upsert keys on a freshly minted `_id`, which matches
    nothing when all stored ids are below the fresh counter): after any
    sequence of submissions the store holds its previous documents plus one
    document per submission, each carrying exactly its submission's analysis
    array; later submissions never overwrite earlier ones. -/
theorem C7_submissions_accumulate (subs : List UpdateGameAnalysis) :
    ∀ store : Store, (∀ a ∈ store.analyses, a._id < store.nextId) →
      (subs.foldl upsert_one_game_analysis store).analyses
        = store.analyses ++ submissionDocs store.nextId subs := by
  induction subs with
  | nil => intro store _; simp [submissionDocs]
  | cons u us ih =>
      intro store hfresh
      have hany : store.analyses.any
          (fun a => a._id = (gameAnalysisOfUpdate u store.nextId)._id) = false := by
        rw [List.any_eq_false]
        intro a ha
        simp only [gameAnalysisOfUpdate, decide_eq_true_eq]
        exact Nat.ne_of_lt (hfresh a ha)
      have hstep : upsert_one_game_analysis store u
          = { store with
                analyses := store.analyses ++ [gameAnalysisOfUpdate u store.nextId]
                nextId := store.nextId + 1 } := by
        simp only [upsert_one_game_analysis]
        rw [hany]
        simp
      have hfresh2 : ∀ a ∈ store.analyses ++ [gameAnalysisOfUpdate u store.nextId],
          a._id < store.nextId + 1 := by
        intro a ha
        rcases List.mem_append.mp ha with h1 | h1
        · exact Nat.lt_succ_of_lt (hfresh a h1)
        · rw [List.mem_singleton] at h1
          subst h1
          exact Nat.lt_succ_self store.nextId
      rw [List.foldl_cons, hstep,
        ih { store with
              analyses := store.analyses ++ [gameAnalysisOfUpdate u store.nextId]
              nextId := store.nextId + 1 } hfresh2]
      simp [submissionDocs, List.append_assoc]

theorem C7_witness :
    (([subU1, subU2].foldl upsert_one_game_analysis storeC7).analyses
      = storeC7.analyses ++ submissionDocs storeC7.nextId [subU1, subU2]) :=
  C7_submissions_accumulate [subU1, subU2] storeC7 (by decide)

end LilaDeepq

